import Mathlib

/-!
Verification of the juju watch-reconcile worker (`caasunitprovisioner.unitWorker`),
the upgrade gate, and the `deployer.SimpleContext` deployment context, as a
shallow embedding in Lean 4.
-/

namespace caasunitprovisioner

/-- Shallow embedding of the Go error values the worker's loop produces or
inspects: `tomb.ErrDying` (returned on the Dying signal), juju `NotFound`
errors, `errors.New`, `errors.Trace` and `errors.Annotate` wrappers, and
arbitrary other errors. -/
inductive GoError where
  | errDying : GoError
  | notFound (msg : String) : GoError
  | errorNew (msg : String) : GoError
  | traced (e : GoError) : GoError
  | annotated (msg : String) (e : GoError) : GoError
  | other (msg : String) : GoError
deriving DecidableEq, Repr

/-- `errors.IsNotFound`: true when the cause, looked up through `Trace` and
`Annotate` wrappers, is a `NotFound` error. -/
def isNotFound : GoError → Bool
  | .notFound _ => true
  | .traced e => isNotFound e
  | .annotated _ e => isNotFound e
  | _ => false

deriving instance DecidableEq for Except

section Loop

/-- The environment's responses consumed while processing one live change
notification: the result of `containerSpecGetter.ContainerSpec(unit)`
(payload string or error), and the result the broker would return from
`EnsureUnit` should it be called. -/
structure NotifyData where
  fetch : Except GoError String
  ensureErr : Option GoError
deriving DecidableEq, Repr

/-- One outcome of the `select` at the top of `unitWorker.loop`: the
catacomb's Dying signal fired, the watcher's channel was closed, or a live
change notification arrived. -/
inductive Event where
  | dying : Event
  | closed : Event
  | notify (d : NotifyData) : Event
deriving DecidableEq, Repr

variable (Spec : Type)

/-- A call to `broker.EnsureUnit(application, unit, spec)` recorded with its
arguments. -/
structure EnsureCall where
  application : String
  unit : String
  spec : Spec
deriving DecidableEq, Repr

variable {Spec}

/-- One iteration of the `for { select { ... } }` body of `unitWorker.loop`,
translated clause by clause from the source. `parse` is
`caas.ParseContainerSpec` (external to the worker). Returns the `EnsureUnit`
call made during the iteration, if any, and `some err` when the iteration
makes the loop return `err`, `none` when it falls through to the next
iteration. -/
def step (parse : String → Except GoError Spec) (app unit : String) :
    Event → Option (EnsureCall Spec) × Option GoError
  | .dying => (none, some .errDying)
  | .closed => (none, some (.errorNew "watcher closed channel"))
  | .notify d =>
    match d.fetch with
    | .error e =>
      if isNotFound e then (none, none)
      else (none, some (.traced e))
    | .ok specStr =>
      match parse specStr with
      | .error perr => (none, some (.annotated "cannot parse container spec" perr))
      | .ok spec =>
        match d.ensureErr with
        | some eerr => (some ⟨app, unit, spec⟩, some (.traced eerr))
        | none => (some ⟨app, unit, spec⟩, none)

variable (Spec) in
/-- The observable behaviour of a finite prefix of the loop's execution:
the `EnsureUnit` calls it made in order, and `some err` if it returned with
`err` before consuming every event (`none`: still looping, blocked on the
next `select`). -/
structure RunOut where
  calls : List (EnsureCall Spec)
  exit : Option GoError
deriving DecidableEq, Repr

/-- Run the loop body over a finite sequence of `select` outcomes, stopping
at the first iteration that makes the loop return. -/
def runLoop (parse : String → Except GoError Spec) (app unit : String) :
    List Event → RunOut Spec
  | [] => ⟨[], none⟩
  | e :: es =>
    match step parse app unit e with
    | (c, some err) => ⟨c.toList, some err⟩
    | (c, none) =>
      let r := runLoop parse app unit es
      ⟨c.toList ++ r.calls, r.exit⟩

/-- The label under which the loop's container-spec watcher `cw` is tracked
once `w.catacomb.Add(cw)` has registered it as a sub-worker. -/
def containerSpecWatcherName : String := "containerSpecWatcher"

variable (Spec) in
/-- The observable behaviour of the whole `unitWorker.loop` call: which
sub-workers it registered on the catacomb, whether control reached the
`for`/`select` loop, and the loop-body behaviour. -/
structure LoopRun where
  subWorkers : List String
  loopEntered : Bool
  result : RunOut Spec
deriving DecidableEq, Repr

/-- The whole of `unitWorker.loop`: call
`containerSpecGetter.WatchContainerSpec(unit)` — on error return the traced
error without registering anything — then register the watcher as a catacomb
sub-worker via `w.catacomb.Add(cw)` and enter the `for`/`select` loop.
`watchErr` is the error returned by `WatchContainerSpec`, if any. -/
def unitLoop (parse : String → Except GoError Spec) (app unit : String)
    (watchErr : Option GoError) (events : List Event) : LoopRun Spec :=
  match watchErr with
  | some e => ⟨[], false, ⟨[], some (.traced e)⟩⟩
  | none => ⟨[containerSpecWatcherName], true, runLoop parse app unit events⟩

/-- Modelled from the spec: `worker/catacomb` is not under `src/`. Killing a
Supervision Unit "propagates a kill signal to the primary task and to every
added sub-worker", so the sub-workers a kill reaches are exactly the
registered ones. -/
def killTargets (subWorkers : List String) : List String := subWorkers

/-- `unitWorker.Kill` runs `w.catacomb.Kill(nil)`: the recorded kill cause is
nil. -/
def unitWorkerKillCause : Option GoError := none

/-- Modelled from the spec: `worker/catacomb` is not under `src/`. The
Supervision Unit's blocking wait "returns a terminal error (nil on clean
stop)", and a task that observes Dying is to "exit cleanly with the unit's
dying error": when the primary task returns the dying error, Wait reports
the recorded kill cause (nil for a plain stop request); any other task error
is the unit's terminal error. -/
def catacombWait (killCause : Option GoError) (taskErr : GoError) : Option GoError :=
  if taskErr = .errDying then killCause else some taskErr

/-- One loop iteration with a successful fetch, parse and ensure: a "live
notification whose fetch, parse and Ensure all succeed". -/
def isGoodNotify {Spec : Type} (parse : String → Except GoError Spec) : Event → Bool
  | .notify d =>
    match d.fetch with
    | .ok s =>
      match parse s with
      | .ok _ => d.ensureErr.isNone
      | .error _ => false
    | .error _ => false
  | _ => false

end Loop

end caasunitprovisioner

namespace gate

/-- Modelled from the spec: the `worker/gate` package itself is not under
`src/` (only its test `assertGate` is). "Gate: two states, Locked and
Unlocked, monotonic (Unlocked is terminal, never re-locks)." -/
inductive GateState where
  | locked : GateState
  | unlocked : GateState
deriving DecidableEq, Repr

/-- Modelled from the spec: a fresh gate manifold starts Locked ("Gate starts
Locked; dependents block"). -/
def newGate : GateState := .locked

/-- Modelled from the spec: `Unlock()` is "idempotent; flips
Locked→Unlocked"; this is the gate's only state transition. -/
def unlock : GateState → GateState := fun _ => .unlocked

/-- Modelled from the spec: the Waiter's `Unlocked()` signal "fires exactly
once and stays fired" — it is observed fired exactly in the Unlocked
state. -/
def unlockedFired : GateState → Bool := fun s => s = GateState.unlocked

/-- Applying `n` further `Unlock()` calls (the only mutating operation a
gate exposes) to a gate state. -/
def applyUnlocks : GateState → Nat → GateState
  | s, 0 => s
  | s, n + 1 => applyUnlocks (unlock s) n

end gate

namespace deployer

open caasunitprovisioner (GoError)

/-- The three filesystem artifacts `DeployUnit` creates for a unit:
`agent.ToolsDir(dataDir, tag)`, the agent configuration directory
`conf.Dir()`, and `syslogConfigRenderer.ConfigFilePath()`. -/
structure DeployPaths where
  toolsDir : String
  agentConfDir : String
  syslogConfPath : String

/-- The environment's responses to the fallible steps of
`SimpleContext.DeployUnit`, in source order: `svc.Installed()`,
`agent.ChangeAgentTools`, `conf.Write()`, `syslogConfigRenderer.Write()` and
`uconf.Install()`. (`syslog.Restart()` failures are only logged and touch no
state, so they are not modelled.) -/
structure DeployEnv where
  alreadyInstalled : Bool
  changeToolsErr : Option GoError
  confWriteErr : Option GoError
  syslogWriteErr : Option GoError
  installErr : Option GoError

/-- `removeOnErr(&err, path)`: on a non-nil error, best-effort removal of
`path` (the `os.Remove` failure branch only logs, so removal is modelled as
taking effect). -/
def removeOnErr (err : Option GoError) (fs : Finset String) (p : String) : Finset String :=
  if err.isSome then fs.erase p else fs

/-- `SimpleContext.DeployUnit`, with the filesystem as a set of artifact
paths. Each `defer removeOnErr(&err, path)` is applied, in LIFO order, to
the state at return with the returned error. `agent.ChangeAgentTools`'s
error is assigned to the named return value but never checked, so execution
continues past it (its removal defer is still registered). -/
def deployUnit (paths : DeployPaths) (env : DeployEnv) (unitName : String)
    (fs0 : Finset String) : Option GoError × Finset String :=
  if env.alreadyInstalled then
    (some (.errorNew ("unit " ++ unitName ++ " is already deployed")), fs0)
  else
    let fs1 := if env.changeToolsErr.isNone then insert paths.toolsDir fs0 else fs0
    match env.confWriteErr with
    | some e => (some e, removeOnErr (some e) fs1 paths.toolsDir)
    | none =>
      let fs2 := insert paths.agentConfDir fs1
      match env.syslogWriteErr with
      | some e =>
        (some e,
          removeOnErr (some e) (removeOnErr (some e) fs2 paths.agentConfDir) paths.toolsDir)
      | none =>
        let fs3 := insert paths.syslogConfPath fs2
        let err := env.installErr
        (err,
          removeOnErr err
            (removeOnErr err (removeOnErr err fs3 paths.syslogConfPath) paths.agentConfDir)
            paths.toolsDir)

/-- The character class `[a-z0-9-]` of the deployed-unit file-name
pattern. -/
def isNameChar (c : Char) : Bool :=
  ('a' ≤ c && c ≤ 'z') || ('0' ≤ c && c ≤ '9') || c == '-'

/-- The character class `[0-9]`. -/
def isDigitCh (c : Char) : Bool :=
  '0' ≤ c && c ≤ '9'

/-- Strip an exact literal from the front of a character list. -/
def dropLit : List Char → List Char → Option (List Char)
  | [], s => some s
  | _ :: _, [] => none
  | p :: ps, c :: cs => if c = p then dropLit ps cs else none

/-- Strip an exact literal from the back of a character list. -/
def dropSuffixLit (suf s : List Char) : Option (List Char) :=
  (dropLit suf.reverse s.reverse).map List.reverse

/-- Matching of one file name against the anchored pattern
`^jujud-([a-z0-9-]+):unit-([a-z0-9-]+)-([0-9]+)\.conf$`, returning the three
capture groups. The decomposition is unambiguous, so this functional form
agrees with the regexp engine: group 1 excludes `:`, so it is forced to the
maximal class run before the first `:`; group 3 followed by the anchored
literal `.conf` is forced to the maximal digit run at the end of the middle
segment, with the mandatory `-` just before it. -/
def matchDeployed (s : List Char) : Option (List Char × List Char × List Char) :=
  match dropLit ("jujud-".toList) s with
  | none => none
  | some r1 =>
    let g1 := r1.takeWhile isNameChar
    if g1.isEmpty then none
    else
      match dropLit (":unit-".toList) (r1.dropWhile isNameChar) with
      | none => none
      | some r2 =>
        match dropSuffixLit (".conf".toList) r2 with
        | none => none
        | some mid =>
          let g3rev := mid.reverse.takeWhile isDigitCh
          if g3rev.isEmpty then none
          else
            match mid.reverse.dropWhile isDigitCh with
            | '-' :: preRev =>
              if preRev.isEmpty then none
              else if preRev.reverse.all isNameChar then
                some (g1, preRev.reverse, g3rev.reverse)
              else none
            | _ => none

/-- The body of the `DeployedUnits` loop for one directory entry: keep the
entry only if the file name matches the pattern, its first group equals the
context's deployer tag, and the recovered `<name>/<number>` string is a
valid unit name (`state.IsUnitName`, external to `src/`, is the abstract
predicate `isUnitName`). -/
def recoverUnit (deployerTag : String) (isUnitName : String → Bool)
    (fileName : String) : Option String :=
  match matchDeployed fileName.toList with
  | none => none
  | some (g1, g2, g3) =>
    if g1 = deployerTag.toList then
      let unitName := String.mk g2 ++ "/" ++ String.mk g3
      if isUnitName unitName then some unitName else none
    else none

/-- `SimpleContext.DeployedUnits` on the init directory's listing. -/
def deployedUnits (deployerTag : String) (isUnitName : String → Bool)
    (files : List String) : List String :=
  files.filterMap (recoverUnit deployerTag isUnitName)

/-- `SimpleContext.DeployedUnits` including the `ioutil.ReadDir` step: the
only error path is the directory read itself. -/
def deployedUnitsFrom (deployerTag : String) (isUnitName : String → Bool)
    (readDir : Except GoError (List String)) : Except GoError (List String) :=
  match readDir with
  | .error e => .error e
  | .ok files => .ok (deployedUnits deployerTag isUnitName files)

end deployer

/-! ## Theorems -/

namespace caasunitprovisioner

theorem runLoop_append_of_exit {Spec : Type} (parse : String → Except GoError Spec)
    (app unit : String) {xs : List Event} (ys : List Event) {err : GoError}
    (h : (runLoop parse app unit xs).exit = some err) :
    runLoop parse app unit (xs ++ ys) = runLoop parse app unit xs := by
  induction xs with
  | nil => simp [runLoop] at h
  | cons e es ih =>
    simp only [List.cons_append, runLoop] at h ⊢
    rcases hs : step parse app unit e with ⟨c, x⟩
    cases x with
    | none =>
      simp only [hs] at h ⊢
      simp only [List.append_eq, RunOut.mk.injEq]
      exact ⟨by rw [ih h], by rw [ih h]⟩
    | some e' => simp [hs]

theorem runLoop_append_of_run {Spec : Type} (parse : String → Except GoError Spec)
    (app unit : String) {xs : List Event} (ys : List Event)
    (h : (runLoop parse app unit xs).exit = none) :
    runLoop parse app unit (xs ++ ys) =
      ⟨(runLoop parse app unit xs).calls ++ (runLoop parse app unit ys).calls,
        (runLoop parse app unit ys).exit⟩ := by
  induction xs with
  | nil => simp [runLoop]
  | cons e es ih =>
    simp only [List.cons_append, runLoop] at h ⊢
    rcases hs : step parse app unit e with ⟨c, x⟩
    cases x with
    | none =>
      simp only [hs] at h ⊢
      simp only [List.append_eq]
      simp [ih h]
    | some e' => simp [hs] at h

/-- C1: a notification whose fetch fails with a NotFound error is a no-op for
the loop: the worker makes no `EnsureUnit` call there, does not terminate,
and the rest of the run is exactly as if the notification had not arrived —
it blocks again on the next notification or the Dying signal. -/
theorem notFound_fetch_is_noop {Spec : Type} (parse : String → Except GoError Spec)
    (app unit : String) (pre post : List Event) (d : NotifyData) (fe : GoError)
    (hf : d.fetch = .error fe) (hnf : isNotFound fe = true) :
    runLoop parse app unit (pre ++ Event.notify d :: post) =
      runLoop parse app unit (pre ++ post) := by
  have hstep : step parse app unit (Event.notify d) =
      ((none : Option (EnsureCall Spec)), none) := by
    simp [step, hf, hnf]
  cases hx : (runLoop parse app unit pre).exit with
  | some err =>
    rw [runLoop_append_of_exit parse app unit _ hx,
      runLoop_append_of_exit parse app unit _ hx]
  | none =>
    rw [runLoop_append_of_run parse app unit _ hx,
      runLoop_append_of_run parse app unit _ hx]
    have : runLoop parse app unit (Event.notify d :: post) = runLoop parse app unit post := by
      simp [runLoop, hstep]
    rw [this]

theorem notFound_fetch_is_noop_witness :
    runLoop (fun s => (Except.ok s.length : Except GoError Nat)) "app" "unit"
        ([Event.notify ⟨Except.ok "ab", none⟩] ++
          Event.notify ⟨Except.error (GoError.notFound "no spec"), none⟩ :: [Event.dying]) =
      runLoop (fun s => (Except.ok s.length : Except GoError Nat)) "app" "unit"
        ([Event.notify ⟨Except.ok "ab", none⟩] ++ [Event.dying]) :=
  notFound_fetch_is_noop _ "app" "unit" _ _ _ _ rfl rfl

end caasunitprovisioner

namespace caasunitprovisioner

/-- C2: one iteration of the loop makes it return a non-dying error exactly
when the notification channel is closed, the fetch fails with a non-NotFound
error, the payload fails to parse, or `EnsureUnit` fails; the dying error is
returned exactly on the Dying signal; and in every other case (NotFound
fetch, successful ensure) the iteration falls through and the loop keeps
running. -/
theorem loop_exit_characterization {Spec : Type} (parse : String → Except GoError Spec)
    (app unit : String) (e : Event) :
    ((∃ err, (step parse app unit e).2 = some err ∧ err ≠ GoError.errDying) ↔
      (e = Event.closed ∨
        (∃ d fe, e = Event.notify d ∧ d.fetch = .error fe ∧ isNotFound fe = false) ∨
        (∃ d s pe, e = Event.notify d ∧ d.fetch = .ok s ∧ parse s = .error pe) ∨
        (∃ d s sp ee, e = Event.notify d ∧ d.fetch = .ok s ∧ parse s = .ok sp ∧
          d.ensureErr = some ee))) ∧
    ((step parse app unit e).2 = some GoError.errDying ↔ e = Event.dying) ∧
    ((step parse app unit e).2 = none ↔
      ((∃ d fe, e = Event.notify d ∧ d.fetch = .error fe ∧ isNotFound fe = true) ∨
        (∃ d s sp, e = Event.notify d ∧ d.fetch = .ok s ∧ parse s = .ok sp ∧
          d.ensureErr = none))) := by
  cases e with
  | dying => simp [step]
  | closed => simp [step]
  | notify d =>
    cases hf : d.fetch with
    | error fe =>
      cases hnf : isNotFound fe with
      | true => simp [step, hf, hnf]
      | false => simp [step, hf, hnf]
    | ok s =>
      cases hp : parse s with
      | error pe => simp [step, hf, hp]
      | ok sp =>
        cases he : d.ensureErr with
        | none => simp [step, hf, hp, he]
        | some ee => simp [step, hf, hp, he]

/-- Any `EnsureUnit` call made by one loop iteration is keyed by the
worker's `application` and `unit` fields and carries the spec parsed from
that iteration's successfully fetched payload. -/
theorem step_call_shape {Spec : Type} (parse : String → Except GoError Spec)
    (app unit : String) (e : Event) (c : EnsureCall Spec) (x : Option GoError)
    (h : step parse app unit e = (some c, x)) :
    c.application = app ∧ c.unit = unit ∧
      ∃ d, e = Event.notify d ∧ ∃ s, d.fetch = .ok s ∧ parse s = .ok c.spec := by
  cases e with
  | dying => simp [step] at h
  | closed => simp [step] at h
  | notify d =>
    cases hf : d.fetch with
    | error fe =>
      cases hnf : isNotFound fe with
      | true => simp [step, hf, hnf] at h
      | false => simp [step, hf, hnf] at h
    | ok s =>
      cases hp : parse s with
      | error pe => simp [step, hf, hp] at h
      | ok sp =>
        cases he : d.ensureErr with
        | none =>
          simp [step, hf, hp, he] at h
          refine ⟨by simp [← h.1], by simp [← h.1], d, rfl, s, hf, ?_⟩
          rw [hp, ← h.1]
        | some ee =>
          simp [step, hf, hp, he] at h
          refine ⟨by simp [← h.1], by simp [← h.1], d, rfl, s, hf, ?_⟩
          rw [hp, ← h.1]

/-- C3: whenever the loop calls `EnsureUnit`, the call is keyed by the
application and unit the worker was constructed with and its payload is
exactly the parse of the payload string returned by the triggering
notification's own — hence most recent — successful fetch: every call a step
makes carries the parse of that step's fetched payload, and in the full call
trace the call made while processing a given notification sits exactly
between the prefix's calls and the suffix's, with that notification's parsed
payload. -/
theorem ensure_payload_from_triggering_fetch {Spec : Type}
    (parse : String → Except GoError Spec) (app unit : String)
    (pre post : List Event) (d : NotifyData) (s : String) (sp : Spec)
    (hpre : (runLoop parse app unit pre).exit = none)
    (hf : d.fetch = .ok s) (hp : parse s = .ok sp) :
    (∀ (e : Event) (c : EnsureCall Spec) (x : Option GoError),
        step parse app unit e = (some c, x) →
        c.application = app ∧ c.unit = unit ∧
          ∃ d', e = Event.notify d' ∧ ∃ t, d'.fetch = .ok t ∧ parse t = .ok c.spec) ∧
      (step parse app unit (Event.notify d)).1 = some ⟨app, unit, sp⟩ ∧
      (runLoop parse app unit (pre ++ Event.notify d :: post)).calls =
        (runLoop parse app unit pre).calls ++
          (⟨app, unit, sp⟩ : EnsureCall Spec) ::
            (if d.ensureErr = none then (runLoop parse app unit post).calls else []) := by
  refine ⟨fun e c x h => step_call_shape parse app unit e c x h, ?_, ?_⟩
  · cases he : d.ensureErr <;> simp [step, hf, hp, he]
  · rw [runLoop_append_of_run parse app unit _ hpre]
    cases he : d.ensureErr with
    | none => simp [runLoop, step, hf, hp, he]
    | some ee => simp [runLoop, step, hf, hp, he]

theorem ensure_payload_from_triggering_fetch_witness :
    (∀ (e : Event) (c : EnsureCall Nat) (x : Option caasunitprovisioner.GoError),
        step (fun t => (Except.ok t.length : Except GoError Nat)) "app" "unit" e =
          (some c, x) →
        c.application = "app" ∧ c.unit = "unit" ∧
          ∃ d', e = Event.notify d' ∧ ∃ t, d'.fetch = .ok t ∧
            (fun t => (Except.ok t.length : Except GoError Nat)) t = .ok c.spec) ∧
      (step (fun t => (Except.ok t.length : Except GoError Nat)) "app" "unit"
          (Event.notify ⟨Except.ok "ab", none⟩)).1 =
        some ⟨"app", "unit", 2⟩ ∧
      (runLoop (fun t => (Except.ok t.length : Except GoError Nat)) "app" "unit"
          ([Event.notify ⟨Except.ok "a", none⟩] ++
            Event.notify ⟨Except.ok "ab", none⟩ :: [Event.dying])).calls =
        (runLoop (fun t => (Except.ok t.length : Except GoError Nat)) "app" "unit"
            [Event.notify ⟨Except.ok "a", none⟩]).calls ++
          (⟨"app", "unit", 2⟩ : EnsureCall Nat) ::
            (if (⟨Except.ok "ab", none⟩ : NotifyData).ensureErr = none then
              (runLoop (fun t => (Except.ok t.length : Except GoError Nat)) "app" "unit"
                [Event.dying]).calls
            else []) :=
  ensure_payload_from_triggering_fetch (fun t => (Except.ok t.length : Except GoError Nat))
    "app" "unit" [Event.notify ⟨Except.ok "a", none⟩] [Event.dying]
    ⟨Except.ok "ab", none⟩ "ab" 2 (by decide) rfl rfl

/-- C5: if the loop has suffered no internal failure, a `Kill()` — which makes
the Dying signal the next observed event — makes the loop return the dying
error without further `EnsureUnit` calls, and the catacomb's `Wait` then
reports nil (clean stop), since `Kill` recorded a nil cause. -/
theorem kill_clean_stop {Spec : Type} (parse : String → Except GoError Spec)
    (app unit : String) (events : List Event)
    (h : (runLoop parse app unit events).exit = none) :
    runLoop parse app unit (events ++ [Event.dying]) =
      ⟨(runLoop parse app unit events).calls, some GoError.errDying⟩ ∧
      catacombWait unitWorkerKillCause GoError.errDying = none := by
  refine ⟨?_, rfl⟩
  rw [runLoop_append_of_run parse app unit _ h]
  simp [runLoop, step]

theorem kill_clean_stop_witness :
    runLoop (fun t => (Except.ok t.length : Except GoError Nat)) "app" "unit"
        ([Event.notify ⟨Except.ok "ab", none⟩] ++ [Event.dying]) =
      ⟨(runLoop (fun t => (Except.ok t.length : Except GoError Nat)) "app" "unit"
          [Event.notify ⟨Except.ok "ab", none⟩]).calls, some GoError.errDying⟩ ∧
      catacombWait unitWorkerKillCause GoError.errDying = none :=
  kill_clean_stop (fun t => (Except.ok t.length : Except GoError Nat))
    "app" "unit" [Event.notify ⟨Except.ok "ab", none⟩] (by decide)

end caasunitprovisioner

namespace caasunitprovisioner

/-- C6: whenever control reaches the reconcile loop, the container-spec
watcher has already been registered as a sub-worker of the catacomb, so a
kill of the unit reaches the subscription; and the loop body then behaves as
`runLoop`. -/
theorem watcher_added_before_loop {Spec : Type} (parse : String → Except GoError Spec)
    (app unit : String) (watchErr : Option GoError) (events : List Event)
    (h : (unitLoop parse app unit watchErr events).loopEntered = true) :
    containerSpecWatcherName ∈ (unitLoop parse app unit watchErr events).subWorkers ∧
      containerSpecWatcherName ∈
        killTargets (unitLoop parse app unit watchErr events).subWorkers ∧
      (unitLoop parse app unit watchErr events).result = runLoop parse app unit events := by
  cases watchErr with
  | some e => simp [unitLoop] at h
  | none => simp [unitLoop, killTargets]

theorem watcher_added_before_loop_witness :
    containerSpecWatcherName ∈
        (unitLoop (fun t => (Except.ok t.length : Except GoError Nat)) "app" "unit"
          none []).subWorkers ∧
      containerSpecWatcherName ∈
        killTargets (unitLoop (fun t => (Except.ok t.length : Except GoError Nat)) "app" "unit"
          none []).subWorkers ∧
      (unitLoop (fun t => (Except.ok t.length : Except GoError Nat)) "app" "unit"
          none []).result =
        runLoop (fun t => (Except.ok t.length : Except GoError Nat)) "app" "unit" [] :=
  watcher_added_before_loop (fun t => (Except.ok t.length : Except GoError Nat))
    "app" "unit" none [] (by decide)

/-- A fully successful live notification makes exactly one `EnsureUnit` call
and falls through to the next iteration. -/
theorem step_of_goodNotify {Spec : Type} (parse : String → Except GoError Spec)
    (app unit : String) (e : Event) (h : isGoodNotify parse e = true) :
    ∃ sp, step parse app unit e = (some ⟨app, unit, sp⟩, none) := by
  cases e with
  | dying => simp [isGoodNotify] at h
  | closed => simp [isGoodNotify] at h
  | notify d =>
    cases hf : d.fetch with
    | error fe => simp [isGoodNotify, hf] at h
    | ok s =>
      cases hp : parse s with
      | error pe => simp [isGoodNotify, hf, hp] at h
      | ok sp =>
        cases he : d.ensureErr with
        | some ee => simp [isGoodNotify, hf, hp, he] at h
        | none => exact ⟨sp, by simp [step, hf, hp, he]⟩

/-- C7: the loop never terminates as a consequence of successful
reconciliation: over any finite sequence of live notifications whose fetch,
parse and ensure all succeed, the loop is still running (blocked on the next
`select`) having made one `EnsureUnit` call per notification, and only a
subsequent Dying signal ends it, with the dying error. -/
theorem successful_reconcile_keeps_running {Spec : Type}
    (parse : String → Except GoError Spec) (app unit : String) (events : List Event)
    (h : ∀ e ∈ events, isGoodNotify parse e = true) :
    (runLoop parse app unit events).exit = none ∧
      (runLoop parse app unit events).calls.length = events.length ∧
      runLoop parse app unit (events ++ [Event.dying]) =
        ⟨(runLoop parse app unit events).calls, some GoError.errDying⟩ := by
  have main : (runLoop parse app unit events).exit = none ∧
      (runLoop parse app unit events).calls.length = events.length := by
    induction events with
    | nil => simp [runLoop]
    | cons e es ih =>
      obtain ⟨sp, hs⟩ := step_of_goodNotify parse app unit e (h e (by simp))
      have ihr := ih (fun x hx => h x (by simp [hx]))
      simp [runLoop, hs, ihr.1, ihr.2]
  refine ⟨main.1, main.2, ?_⟩
  rw [runLoop_append_of_run parse app unit _ main.1]
  simp [runLoop, step]

theorem successful_reconcile_keeps_running_witness :
    (runLoop (fun t => (Except.ok t.length : Except GoError Nat)) "app" "unit"
        [Event.notify ⟨Except.ok "ab", none⟩, Event.notify ⟨Except.ok "abc", none⟩]).exit =
        none ∧
      (runLoop (fun t => (Except.ok t.length : Except GoError Nat)) "app" "unit"
        [Event.notify ⟨Except.ok "ab", none⟩,
          Event.notify ⟨Except.ok "abc", none⟩]).calls.length =
        [Event.notify ⟨Except.ok "ab", none⟩, Event.notify ⟨Except.ok "abc", none⟩].length ∧
      runLoop (fun t => (Except.ok t.length : Except GoError Nat)) "app" "unit"
        ([Event.notify ⟨Except.ok "ab", none⟩, Event.notify ⟨Except.ok "abc", none⟩] ++
          [Event.dying]) =
        ⟨(runLoop (fun t => (Except.ok t.length : Except GoError Nat)) "app" "unit"
            [Event.notify ⟨Except.ok "ab", none⟩,
              Event.notify ⟨Except.ok "abc", none⟩]).calls,
          some GoError.errDying⟩ :=
  successful_reconcile_keeps_running (fun t => (Except.ok t.length : Except GoError Nat))
    "app" "unit" [Event.notify ⟨Except.ok "ab", none⟩, Event.notify ⟨Except.ok "abc", none⟩]
    (by decide)

/-- C8: a notification whose payload fetch succeeds but whose parse fails
makes the loop return at that iteration with the parse error annotated
"cannot parse container spec"; nothing after the failing notification is
processed and no retry occurs. -/
theorem parse_failure_annotated {Spec : Type} (parse : String → Except GoError Spec)
    (app unit : String) (pre post : List Event) (d : NotifyData) (s : String) (pe : GoError)
    (hpre : (runLoop parse app unit pre).exit = none)
    (hf : d.fetch = .ok s) (hp : parse s = .error pe) :
    runLoop parse app unit (pre ++ Event.notify d :: post) =
      ⟨(runLoop parse app unit pre).calls,
        some (GoError.annotated "cannot parse container spec" pe)⟩ := by
  rw [runLoop_append_of_run parse app unit _ hpre]
  simp [runLoop, step, hf, hp]

theorem parse_failure_annotated_witness :
    runLoop (fun t => (Except.error (GoError.other t) : Except GoError Nat)) "app" "unit"
        ([] ++ Event.notify ⟨Except.ok "bad", none⟩ :: [Event.dying]) =
      ⟨(runLoop (fun t => (Except.error (GoError.other t) : Except GoError Nat)) "app" "unit"
          []).calls,
        some (GoError.annotated "cannot parse container spec" (GoError.other "bad"))⟩ :=
  parse_failure_annotated (fun t => (Except.error (GoError.other t) : Except GoError Nat))
    "app" "unit" [] [Event.dying] ⟨Except.ok "bad", none⟩ "bad" (GoError.other "bad")
    (by decide) rfl rfl

end caasunitprovisioner

namespace gate

theorem applyUnlocks_unlock (s : GateState) (n : Nat) :
    applyUnlocks (unlock s) n = GateState.unlocked := by
  induction n generalizing s with
  | zero => rfl
  | succ n ih =>
    simp only [applyUnlocks]
    exact ih (unlock s)

/-- C4: a gate starts Locked — its Unlocked signal is not fired before
`Unlock` is called — and once `Unlock()` has been called the signal is fired
and stays fired under every later sequence of operations: the gate never
returns to Locked. -/
theorem gate_starts_locked_unlock_monotonic :
    unlockedFired newGate = false ∧
      ∀ n : Nat, unlockedFired (applyUnlocks (unlock newGate) n) = true := by
  refine ⟨rfl, fun n => ?_⟩
  rw [applyUnlocks_unlock]
  rfl

end gate

namespace deployer

/-- C9: whenever `DeployUnit` returns a non-nil error, none of the unit's
tools directory, agent configuration directory, or syslog configuration file
remains on the filesystem — every one of them it had created is removed
before the error is returned — and on a nil-error return nothing is
removed. -/
theorem deployUnit_cleanup (paths : DeployPaths) (env : DeployEnv) (unitName : String)
    (fs0 : Finset String) (ht : paths.toolsDir ∉ fs0) (hcd : paths.agentConfDir ∉ fs0)
    (hsp : paths.syslogConfPath ∉ fs0) :
    ((deployUnit paths env unitName fs0).1.isSome →
      paths.toolsDir ∉ (deployUnit paths env unitName fs0).2 ∧
        paths.agentConfDir ∉ (deployUnit paths env unitName fs0).2 ∧
        paths.syslogConfPath ∉ (deployUnit paths env unitName fs0).2) ∧
      ((deployUnit paths env unitName fs0).1 = none →
        fs0 ⊆ (deployUnit paths env unitName fs0).2) := by
  rcases env with ⟨inst, cte, cwe, swe, ie⟩
  cases inst with
  | true => exact ⟨fun _ => ⟨ht, hcd, hsp⟩, by simp [deployUnit]⟩
  | false =>
    cases cwe <;> cases swe <;> cases ie <;> cases cte <;>
      (constructor <;> intro h <;>
        simp_all [deployUnit, removeOnErr, Finset.subset_iff, Finset.mem_erase,
          Finset.mem_insert])

theorem deployUnit_cleanup_witness :
    ((deployUnit ⟨"t", "c", "s"⟩
        ⟨false, none, none, none, some (caasunitprovisioner.GoError.other "boom")⟩ "u"
        {"x"}).1.isSome →
      "t" ∉ (deployUnit ⟨"t", "c", "s"⟩
          ⟨false, none, none, none, some (caasunitprovisioner.GoError.other "boom")⟩ "u"
          {"x"}).2 ∧
        "c" ∉ (deployUnit ⟨"t", "c", "s"⟩
          ⟨false, none, none, none, some (caasunitprovisioner.GoError.other "boom")⟩ "u"
          {"x"}).2 ∧
        "s" ∉ (deployUnit ⟨"t", "c", "s"⟩
          ⟨false, none, none, none, some (caasunitprovisioner.GoError.other "boom")⟩ "u"
          {"x"}).2) ∧
      ((deployUnit ⟨"t", "c", "s"⟩
          ⟨false, none, none, none, some (caasunitprovisioner.GoError.other "boom")⟩ "u"
          {"x"}).1 = none →
        ({"x"} : Finset String) ⊆ (deployUnit ⟨"t", "c", "s"⟩
          ⟨false, none, none, none, some (caasunitprovisioner.GoError.other "boom")⟩ "u"
          {"x"}).2) :=
  deployUnit_cleanup ⟨"t", "c", "s"⟩
    ⟨false, none, none, none, some (caasunitprovisioner.GoError.other "boom")⟩ "u"
    {"x"} (by decide) (by decide) (by decide)

theorem recoverUnit_eq_some_iff (tag : String) (v : String → Bool) (f u : String) :
    recoverUnit tag v f = some u ↔
      ∃ g1 g2 g3, matchDeployed f.toList = some (g1, g2, g3) ∧ g1 = tag.toList ∧
        u = String.mk g2 ++ "/" ++ String.mk g3 ∧ v u = true := by
  unfold recoverUnit
  rcases hm : matchDeployed f.toList with _ | ⟨g1, g2, g3⟩
  · simp
  · constructor
    · intro hr
      simp only at hr
      split_ifs at hr with h1 h2
      · simp only [Option.some_inj] at hr
        exact ⟨g1, g2, g3, rfl, h1, hr.symm, hr ▸ h2⟩
    · rintro ⟨g1', g2', g3', hm', h1, hu, hv⟩
      simp only [Option.some_inj, Prod.mk.injEq] at hm'
      obtain ⟨e1, e2, e3⟩ := hm'
      subst e1; subst e2; subst e3
      simp [h1, ← hu, hv]

/-- C10: `DeployedUnits` returns exactly the unit names recovered from
init-directory entries matching `jujud-<tag>:unit-<name>-<number>.conf`
whose embedded deployer tag equals the context's own tag and whose recovered
`<name>/<number>` is a valid unit name; all other entries are silently
skipped, and reading a well-formed directory listing never produces an
error. -/
theorem deployedUnits_characterization (deployerTag : String) (isUnitName : String → Bool)
    (files : List String) (u : String) :
    (u ∈ deployedUnits deployerTag isUnitName files ↔
      ∃ f ∈ files, ∃ g1 g2 g3, matchDeployed f.toList = some (g1, g2, g3) ∧
        g1 = deployerTag.toList ∧ u = String.mk g2 ++ "/" ++ String.mk g3 ∧
        isUnitName u = true) ∧
      deployedUnitsFrom deployerTag isUnitName (.ok files) =
        .ok (deployedUnits deployerTag isUnitName files) := by
  refine ⟨?_, rfl⟩
  rw [deployedUnits, List.mem_filterMap]
  constructor
  · rintro ⟨f, hf, hr⟩
    exact ⟨f, hf, (recoverUnit_eq_some_iff deployerTag isUnitName f u).1 hr⟩
  · rintro ⟨f, hf, hg⟩
    exact ⟨f, hf, (recoverUnit_eq_some_iff deployerTag isUnitName f u).2 hg⟩

end deployer
